import Mathlib

/-!
Shallow embedding of the Hanabi replay/state-reconstruction engine of
`trace_game.py` (the core of the `ah2ac2-dataset-inspection` repository).

Cards travel through the Python code as rendered strings
`f"{color_map[color]} {rank + 1}"` and `handle_play` recovers the pair with
`card.split()`.  For color names without spaces (true of the color map) this
string round-trip is the identity on the (name, 1-based rank) pair, so the
embedding represents a rendered card directly as such a pair.

Python exceptions leave in-place mutations applied; handlers therefore
return `Except (GameError × GameState) GameState`, where an error carries
the state as mutated up to the raise point.
-/

namespace HanabiTrace

/-- A raw deck entry as stored in the dataset: (color index, 0-based rank). -/
structure RawCard where
  color : Int
  rank : Int
  deriving DecidableEq, Repr

/-- A rendered card, the result of `card_str`: color name and 1-based rank. -/
structure Card where
  colorName : String
  shownRank : Int
  deriving DecidableEq, Repr

/-- The external COLOR_MAP: integer color index to color name. -/
abbrev ColorMap := List (Int × String)

/-- The played pile: a dict from color name to highest rank played. -/
abbrev PlayedPile := List (String × Int)

/-- Error kinds that can be raised while tracing one game.
`invalidGame` embeds `InvalidGameError` (the only class the script raises
itself); `keyError` a Python dict `KeyError`; `indexError` a Python
list/tensor `IndexError`; `runtimeError` the torch error raised by
`.item()` on a tensor with more than one element. -/
inductive GameError where
  | invalidGame (msg : String)
  | keyError
  | indexError
  | runtimeError
  deriving DecidableEq, Repr

/-- `card_str` (trace_game.py:64): renders a raw card via the color map;
a color index absent from the map raises a `KeyError`. -/
def card_str (card : RawCard) (color_map : ColorMap) : Except GameError Card :=
  match color_map.lookup card.color with
  | some name => .ok ⟨name, card.rank + 1⟩
  | none => .error .keyError

/-- Dict read `played_pile[color]`. -/
def pileLookup (pile : PlayedPile) (c : String) : Option Int :=
  pile.lookup c

/-- Dict write `played_pile[color] = rank`: updates the first occurrence in
place (a dict key is unique; lookups always see the first occurrence). -/
def pileSet : PlayedPile → String → Int → PlayedPile
  | [], c, r => [(c, r)]
  | (k, v) :: rest, c, r =>
    if k = c then (k, r) :: rest else (k, v) :: pileSet rest c r

/-- Height of a color's stack, 0 when the color is absent. -/
def pileHeight (pile : PlayedPile) (c : String) : Int :=
  (pileLookup pile c).getD 0

/-- The mutable game state of one episode's replay. -/
structure GameState where
  hands : List (List Card)
  discard_pile : List Card
  played_pile : PlayedPile
  deck_draw_ptr : Nat
  deriving DecidableEq, Repr

/-- Python `list.pop(i)`: negative indices count from the end; an index out
of range returns `none` (an `IndexError`).  Yields the removed element and
the remaining list. -/
def pyPop (l : List α) (i : Int) : Option (α × List α) :=
  let j : Int := if i < 0 then i + l.length else i
  if 0 ≤ j ∧ j < (l.length : Int) then
    match l[j.toNat]? with
    | some a => some (a, l.eraseIdx j.toNat)
    | none => none
  else
    none

/-- `initialize_game_state` (trace_game.py:79): deals `game_deck[i*5:(i+1)*5]`
to player `i` (Python slices clamp at the deck's end — no length check is
performed), starts with empty discard pile, all stacks at `0`, and the draw
cursor at `num_players * 5`.  Only a color-map `KeyError` can fail it. -/
def init_game_state (game_deck : List RawCard) (num_players : Nat)
    (color_map : ColorMap) : Except GameError GameState := do
  let hands ← (List.range num_players).mapM (fun i =>
    ((game_deck.drop (i * 5)).take 5).mapM (fun c => card_str c color_map))
  return { hands := hands,
           discard_pile := [],
           played_pile := color_map.map (fun p => (p.2, 0)),
           deck_draw_ptr := num_players * 5 }

/-- `handle_discard` (trace_game.py:132): validates the index against the
current hand (raising `InvalidGameError` when `idx >= len(hand)`), pops the
card onto the discard pile, then draws from the deck when
`deck_draw_ptr < 50` — the hardcoded full-deck size. -/
def handle_discard (action_value : Int) (acting : Nat)
    (game_deck : List RawCard) (color_map : ColorMap)
    (s : GameState) : Except (GameError × GameState) GameState :=
  match s.hands[acting]? with
  | none => .error (.indexError, s)
  | some hand =>
    let idx := action_value
    if (hand.length : Int) ≤ idx then
      .error (.invalidGame "Game data contains an invalid discard index", s)
    else
      match pyPop hand idx with
      | none => .error (.indexError, s)
      | some (card, hand') =>
        let hands1 := s.hands.set acting hand'
        let discard1 := s.discard_pile ++ [card]
        if s.deck_draw_ptr < 50 then
          match game_deck[s.deck_draw_ptr]? with
          | none => .error (.indexError, { s with hands := hands1, discard_pile := discard1 })
          | some raw =>
            match card_str raw color_map with
            | .error e => .error (e, { s with hands := hands1, discard_pile := discard1 })
            | .ok new_card =>
              .ok { s with
                      hands := hands1.set acting (hand' ++ [new_card]),
                      discard_pile := discard1,
                      deck_draw_ptr := s.deck_draw_ptr + 1 }
        else
          .ok { s with hands := hands1, discard_pile := discard1 }

/-- `handle_play` (trace_game.py:176): validates `idx = action_value - 5`
against the current hand, pops the card, raises the color's stack when the
card's (1-based) rank strictly exceeds the current height, then draws when
`deck_draw_ptr < 50`. -/
def handle_play (action_value : Int) (acting : Nat)
    (game_deck : List RawCard) (color_map : ColorMap)
    (s : GameState) : Except (GameError × GameState) GameState :=
  match s.hands[acting]? with
  | none => .error (.indexError, s)
  | some hand =>
    let idx := action_value - 5
    if (hand.length : Int) ≤ idx then
      .error (.invalidGame "Game data contains an invalid play index", s)
    else
      match pyPop hand idx with
      | none => .error (.indexError, s)
      | some (card, hand') =>
        let hands1 := s.hands.set acting hand'
        match pileLookup s.played_pile card.colorName with
        | none => .error (.keyError, { s with hands := hands1 })
        | some h0 =>
          let pile2 :=
            if h0 < card.shownRank then
              pileSet s.played_pile card.colorName card.shownRank
            else s.played_pile
          if s.deck_draw_ptr < 50 then
            match game_deck[s.deck_draw_ptr]? with
            | none => .error (.indexError, { s with hands := hands1, played_pile := pile2 })
            | some raw =>
              match card_str raw color_map with
              | .error e => .error (e, { s with hands := hands1, played_pile := pile2 })
              | .ok new_card =>
                .ok { s with
                        hands := hands1.set acting (hand' ++ [new_card]),
                        played_pile := pile2,
                        deck_draw_ptr := s.deck_draw_ptr + 1 }
          else
            .ok { s with hands := hands1, played_pile := pile2 }

/-- `(action_vec != 30).nonzero(...)` (trace_game.py:262): the indices of
the entries differing from the sentinel `30`, in increasing order. -/
def nonSentinel (vec : List Int) : List Nat :=
  (List.range vec.length).filter (fun i => vec.getD i 0 ≠ 30)

/-- What one step contributed to the log: skipped (all-sentinel vector) or
acted (actor index and raw code; a state snapshot is printed exactly for
these steps). -/
inductive StepLog where
  | skipped
  | acted (player : Nat) (value : Int)
  deriving DecidableEq, Repr

/-- One iteration of the loop in `trace_game` (trace_game.py:257): find the
actor (zero non-sentinel entries: skip; two or more: `.item()` raises a
RuntimeError), validate the code, look its description up, dispatch to
discard/play/hint, and report the step's log entry. -/
def trace_step (game_deck : List RawCard) (color_map : ColorMap)
    (action_descriptions : List String) (vec : List Int) (s : GameState) :
    Except (GameError × GameState) (GameState × StepLog) :=
  match nonSentinel vec with
  | [] => .ok (s, .skipped)
  | [i] =>
    let v := vec.getD i 0
    if v < 0 ∨ 30 < v then
      .error (.invalidGame "Game data contains an invalid action value", s)
    else
      match action_descriptions[v.toNat]? with
      | none => .error (.indexError, s)
      | some _ =>
        let dispatched : Except (GameError × GameState) GameState :=
          if 0 ≤ v ∧ v ≤ 4 then handle_discard v i game_deck color_map s
          else if 5 ≤ v ∧ v ≤ 9 then handle_play v i game_deck color_map s
          else if 10 ≤ v ∧ v ≤ 29 then .ok s
          else .ok s
        match dispatched with
        | .error e => .error e
        | .ok s' => .ok (s', .acted i v)
  | _ :: _ :: _ => .error (.runtimeError, s)

/-- The step loop `for action_num in range(num_actions)` of `trace_game`:
runs `n` steps off the front of `game_actions` (indexing past its end is an
`IndexError`), collecting the per-step log entries. -/
def trace_run (game_deck : List RawCard) (color_map : ColorMap)
    (action_descriptions : List String) (game_actions : List (List Int))
    (n : Nat) (s : GameState) :
    Except (GameError × GameState) (GameState × List StepLog) :=
  match n, game_actions with
  | 0, _ => .ok (s, [])
  | _ + 1, [] => .error (.indexError, s)
  | k + 1, vec :: rest =>
    match trace_step game_deck color_map action_descriptions vec s with
    | .error e => .error e
    | .ok (s', log) =>
      match trace_run game_deck color_map action_descriptions rest k s' with
      | .error e => .error e
      | .ok (s'', logs) => .ok (s'', log :: logs)

/-- `trace_game` (trace_game.py:227): fresh state from the deck and player
count, then the step loop.  The carried partial state of a failing step is
dropped here: the caller only sees the exception. -/
def trace_game (game_deck : List RawCard) (num_players : Nat)
    (color_map : ColorMap) (action_descriptions : List String)
    (game_actions : List (List Int)) (num_actions : Nat) :
    Except GameError (GameState × List StepLog) :=
  match init_game_state game_deck num_players color_map with
  | .error e => .error e
  | .ok s0 =>
    match trace_run game_deck color_map action_descriptions game_actions num_actions s0 with
    | .error (e, _) => .error e
    | .ok r => .ok r

/-- One recorded episode, as `load_game_data` returns it. -/
structure Episode where
  actions : List (List Int)
  deck : List RawCard
  num_actions : Nat
  num_players : Nat
  score : Int
  deriving DecidableEq, Repr

/-- What the driver writes into one episode's log file. -/
inductive EpisodeOutcome where
  | completed (finalScore : Int)
  | failedLogged (msg : String)
  deriving DecidableEq, Repr

/-- One iteration of the loop in `main` (trace_game.py:312): the episode's
trace runs under `try ... except InvalidGameError`; only that class is
turned into an error line in the episode's log — every other exception
escapes the loop. -/
def run_episode (color_map : ColorMap) (action_descriptions : List String)
    (ep : Episode) : Except GameError EpisodeOutcome :=
  match trace_game ep.deck ep.num_players color_map action_descriptions
      ep.actions ep.num_actions with
  | .ok _ => .ok (.completed ep.score)
  | .error (.invalidGame msg) => .ok (.failedLogged msg)
  | .error e => .error e

/-- The batch loop of `main` over all episodes (file set-up elided): stops
at the first exception that is not an `InvalidGameError`. -/
def main_batch (color_map : ColorMap) (action_descriptions : List String) :
    List Episode → Except GameError (List EpisodeOutcome)
  | [] => .ok []
  | ep :: rest =>
    match run_episode color_map action_descriptions ep with
    | .error e => .error e
    | .ok outc =>
      match main_batch color_map action_descriptions rest with
      | .error e => .error e
      | .ok l => .ok (outc :: l)

/-- Total number of cards currently held across all hands. -/
def handsSum (s : GameState) : Nat :=
  (s.hands.map List.length).sum

/-- The state visible at the end of a handler call, successful or not
(an error carries the state as mutated up to the raise point). -/
def outState : Except (GameError × GameState) GameState → GameState
  | .ok s => s
  | .error (_, s) => s

/-- Whether a step's log entry records a play action (codes 5–9). -/
def isPlayLog : StepLog → Bool
  | .acted _ v => decide (5 ≤ v ∧ v ≤ 9)
  | .skipped => false

/-- Number of play actions recorded in a run's log. -/
def playCount (logs : List StepLog) : Nat :=
  (logs.filter isPlayLog).length

/-! ### Concrete fixtures used by witnesses and counterexamples -/

/-- A one-color color map. -/
def cm1 : ColorMap := [(0, "Red")]

/-- A description table covering all valid codes 0–30. -/
def descs31 : List String := List.replicate 31 "action"

/-- A full 50-card deck (all the same raw card). -/
def deck50 : List RawCard := List.replicate 50 ⟨0, 0⟩

/-- A five-card hand of rendered cards. -/
def fiveReds : List Card :=
  [⟨"Red", 1⟩, ⟨"Red", 1⟩, ⟨"Red", 1⟩, ⟨"Red", 1⟩, ⟨"Red", 1⟩]

/-- A one-player state with a full hand and draw cursor at 5. -/
def sFive : GameState :=
  { hands := [fiveReds],
    discard_pile := [],
    played_pile := [("Red", 0)],
    deck_draw_ptr := 5 }

/-- A state of a one-player game over a six-card deck with the draw cursor
already at the end of that deck. -/
def deck6 : List RawCard := List.replicate 6 ⟨0, 0⟩

/-- A three-card deck: far too short for even a single five-card hand. -/
def deck3 : List RawCard := [⟨0, 0⟩, ⟨0, 0⟩, ⟨0, 0⟩]

/-- Four rendered cards. -/
def fourReds : List Card := [⟨"Red", 1⟩, ⟨"Red", 1⟩, ⟨"Red", 1⟩, ⟨"Red", 1⟩]

/-- One-player state over `deck6` whose draw cursor equals the deck length. -/
def sDeck6 : GameState :=
  { hands := [fiveReds],
    discard_pile := [],
    played_pile := [("Red", 0)],
    deck_draw_ptr := 6 }

/-- The state `handle_discard 0 0 deck50 cm1 sFive` ends in: slot 0
discarded, the next deck card drawn, cursor advanced to 6. -/
def sAfterDiscard : GameState :=
  { hands := [fiveReds],
    discard_pile := [⟨"Red", 1⟩],
    played_pile := [("Red", 0)],
    deck_draw_ptr := 6 }

/-- An episode whose deck holds a color index absent from `cm1`. -/
def epBadColor : Episode :=
  { actions := [], deck := [⟨7, 0⟩], num_actions := 0, num_players := 1, score := 0 }

/-- A well-formed episode with no steps. -/
def epFine : Episode :=
  { actions := [], deck := deck50, num_actions := 0, num_players := 1, score := 4 }

/-- An episode whose single step carries the invalid action code 31. -/
def ep31 : Episode :=
  { actions := [[31]], deck := deck50, num_actions := 1, num_players := 1, score := 3 }

/-- A one-player state holding a playable rank-3 card over a stack of
height 1, with the draw pile exhausted. -/
def sPlay : GameState :=
  { hands := [[⟨"Red", 3⟩, ⟨"Red", 1⟩]],
    discard_pile := [],
    played_pile := [("Red", 1)],
    deck_draw_ptr := 50 }

/-- The freshly initialized two-player state over `deck50`. -/
def s0Two : GameState :=
  { hands := [fiveReds, fiveReds],
    discard_pile := [],
    played_pile := [("Red", 0)],
    deck_draw_ptr := 10 }

/-- `s0Two` after one discard step (slot 3, then a draw). -/
def sC5 : GameState :=
  { hands := [fiveReds, fiveReds],
    discard_pile := [⟨"Red", 1⟩],
    played_pile := [("Red", 0)],
    deck_draw_ptr := 11 }

/-! ### Helper lemmas -/

/-- A successful `pyPop` at a non-negative index is an in-bounds removal. -/
theorem pyPop_some_facts {α : Type} {l : List α} {i : Int} {c : α} {l' : List α}
    (h0 : 0 ≤ i) (h : pyPop l i = some (c, l')) :
    i < (l.length : Int) ∧ l' = l.eraseIdx i.toNat ∧ l'.length + 1 = l.length := by
  simp only [pyPop] at h
  rw [if_neg (show ¬ i < 0 by omega)] at h
  split at h
  next hc =>
    split at h
    next a ha =>
      have h2 := Option.some.inj h
      have hl' : l' = l.eraseIdx i.toNat := (congrArg Prod.snd h2).symm
      refine ⟨hc.2, hl', ?_⟩
      rw [hl']
      exact List.length_eraseIdx_add_one (by omega)
    next => cases h
  next => cases h

/-- A `some` answer from `getElem?` means the index is in bounds. -/
theorem getElem?_some_lt {α : Type} {l : List α} {i : Nat} {a : α}
    (h : l[i]? = some a) : i < l.length := by
  by_contra hc
  rw [List.getElem?_eq_none (by omega)] at h
  cases h

/-- Rendering a list of raw cards succeeds, with one card per raw card, as
soon as every color index resolves in the color map. -/
theorem mapM_card_str_ok {cm : ColorMap} {l : List RawCard}
    (h : ∀ c ∈ l, (cm.lookup c.color).isSome) :
    ∃ l', l.mapM (fun c => card_str c cm) = .ok l' ∧ l'.length = l.length := by
  induction l with
  | nil => exact ⟨[], rfl, rfl⟩
  | cons a t ih =>
    obtain ⟨t', ht', hlen⟩ := ih (fun c hc => h c (List.mem_cons_of_mem a hc))
    obtain ⟨nm, hnm⟩ := Option.isSome_iff_exists.mp (h a (List.mem_cons_self a t))
    refine ⟨⟨nm, a.rank + 1⟩ :: t', ?_, by simp [hlen]⟩
    rw [List.mapM_cons,
      show card_str a cm = Except.ok ⟨nm, a.rank + 1⟩ by simp [card_str, hnm], ht']
    rfl

/-- Dealing the five-card slices for a list of player indices succeeds, and
each dealt hand is exactly as long as its (possibly clamped) slice. -/
theorem mapM_deal_ok {deck : List RawCard} {cm : ColorMap}
    (h : ∀ c ∈ deck, (cm.lookup c.color).isSome) (idxs : List Nat) :
    ∃ hands,
      idxs.mapM (fun i => ((deck.drop (i * 5)).take 5).mapM (fun c => card_str c cm)) =
        .ok hands ∧
      List.Forall₂ (fun i hd => List.length hd = ((deck.drop (i * 5)).take 5).length)
        idxs hands := by
  induction idxs with
  | nil => exact ⟨[], rfl, List.Forall₂.nil⟩
  | cons i t ih =>
    obtain ⟨hands, hh, hf⟩ := ih
    have hsl : ∀ c ∈ (deck.drop (i * 5)).take 5, (cm.lookup c.color).isSome :=
      fun c hc => h c (List.drop_subset _ _ (List.take_subset _ _ hc))
    obtain ⟨hd, hhd, hlen⟩ := mapM_card_str_ok hsl
    refine ⟨hd :: hands, ?_, List.Forall₂.cons hlen hf⟩
    rw [List.mapM_cons, hhd, hh]
    rfl

/-- After `pileSet pile c r`, looking `c` up answers `r`. -/
theorem pileLookup_set_self (pile : PlayedPile) (c : String) (r : Int) :
    pileLookup (pileSet pile c r) c = some r := by
  induction pile with
  | nil => simp [pileSet, pileLookup, List.lookup]
  | cons kv rest ih =>
    obtain ⟨k, v⟩ := kv
    by_cases hk : k = c
    · subst hk
      simp [pileSet, pileLookup, List.lookup]
    · have hck : (c == k) = false := by
        rw [beq_eq_false_iff_ne]
        exact fun h2 => hk h2.symm
      simp only [pileSet, if_neg hk, pileLookup, List.lookup, hck] at ih ⊢
      exact ih

/-- `pileSet` leaves every other color's entry alone. -/
theorem pileLookup_set_ne (pile : PlayedPile) {c c' : String} (r : Int)
    (h : c' ≠ c) : pileLookup (pileSet pile c r) c' = pileLookup pile c' := by
  have hcc : (c' == c) = false := beq_eq_false_iff_ne.mpr h
  induction pile with
  | nil => simp [pileSet, pileLookup, List.lookup, hcc]
  | cons kv rest ih =>
    obtain ⟨k, v⟩ := kv
    by_cases hk : k = c
    · subst hk
      simp only [pileSet, if_pos rfl, pileLookup, List.lookup, hcc]
    · cases hck : c' == k
      · simp only [pileSet, if_neg hk, pileLookup, List.lookup, hck] at ih ⊢
        exact ih
      · simp only [pileSet, if_neg hk, pileLookup, List.lookup, hck]

/-- Raising color `c` from its current height to a larger `r` never lowers
any color's height. -/
theorem pileHeight_set_mono {pile : PlayedPile} {c : String} {h0 r : Int}
    (hlook : pileLookup pile c = some h0) (hlt : h0 < r) :
    ∀ c', pileHeight pile c' ≤ pileHeight (pileSet pile c r) c' := by
  intro c'
  by_cases hc : c' = c
  · subst hc
    simp only [pileHeight, hlook, pileLookup_set_self, Option.getD_some]
    omega
  · rw [pileHeight, pileHeight, pileLookup_set_ne _ _ hc]

/-- A successful discard never touches the played stacks. -/
theorem discard_ok_pile {av : Int} {acting : Nat} {deck : List RawCard}
    {cm : ColorMap} {s s' : GameState}
    (h : handle_discard av acting deck cm s = .ok s') :
    s'.played_pile = s.played_pile := by
  simp only [handle_discard] at h
  split at h
  next => cases h
  next hand hg =>
    split at h
    next => cases h
    next =>
      split at h
      next => cases h
      next card hand' hpop =>
        split at h
        next =>
          split at h
          next => cases h
          next raw hraw =>
            split at h
            next => cases h
            next nc hcs =>
              injection h with h2
              subst h2
              rfl
        next =>
          injection h with h2
          subst h2
          rfl

/-- A successful play never lowers any color's stack height. -/
theorem play_ok_pile_mono {av : Int} {acting : Nat} {deck : List RawCard}
    {cm : ColorMap} {s s' : GameState}
    (h : handle_play av acting deck cm s = .ok s') :
    ∀ c, pileHeight s.played_pile c ≤ pileHeight s'.played_pile c := by
  simp only [handle_play] at h
  split at h
  next => cases h
  next hand hg =>
    split at h
    next => cases h
    next =>
      split at h
      next => cases h
      next card hand' hpop =>
        split at h
        next => cases h
        next h0 hlook =>
          have hmono : ∀ c', pileHeight s.played_pile c' ≤
              pileHeight (if h0 < card.shownRank then
                pileSet s.played_pile card.colorName card.shownRank
              else s.played_pile) c' := by
            intro c'
            by_cases hlt : h0 < card.shownRank
            · rw [if_pos hlt]
              exact pileHeight_set_mono hlook hlt c'
            · rw [if_neg hlt]
          split at h
          next =>
            split at h
            next => cases h
            next raw hraw =>
              split at h
              next => cases h
              next nc hcs =>
                injection h with h2
                subst h2
                exact hmono
          next =>
            injection h with h2
            subst h2
            exact hmono

/-- A successful step never lowers any color's stack height. -/
theorem step_ok_pile_mono {deck : List RawCard} {cm : ColorMap}
    {descs : List String} {vec : List Int} {s s' : GameState} {log : StepLog}
    (h : trace_step deck cm descs vec s = .ok (s', log)) :
    ∀ c, pileHeight s.played_pile c ≤ pileHeight s'.played_pile c := by
  simp only [trace_step] at h
  split at h
  next =>
    injection h with h2
    cases h2
    exact fun c => le_refl _
  next i =>
    split at h
    next => cases h
    next =>
      split at h
      next => cases h
      next d hd =>
        split at h
        next e heq => cases h
        next s'' heq =>
          injection h with h2
          cases h2
          split at heq
          next =>
            intro c
            rw [discard_ok_pile heq]
          next =>
            split at heq
            next => exact play_ok_pile_mono heq
            next =>
              split at heq
              next =>
                injection heq with h3
                subst h3
                exact fun c => le_refl _
              next =>
                injection heq with h3
                subst h3
                exact fun c => le_refl _
  next => cases h

/-- A successful run of any number of steps never lowers any color's stack
height. -/
theorem run_ok_pile_mono {deck : List RawCard} {cm : ColorMap}
    {descs : List String} :
    ∀ (n : Nat) (acts : List (List Int)) (s s2 : GameState) (logs : List StepLog),
      trace_run deck cm descs acts n s = .ok (s2, logs) →
      ∀ c, pileHeight s.played_pile c ≤ pileHeight s2.played_pile c := by
  intro n
  induction n with
  | zero =>
    intro acts s s2 logs h c
    simp only [trace_run] at h
    injection h with h2
    cases h2
    exact le_refl _
  | succ k ih =>
    intro acts s s2 logs h c
    cases acts with
    | nil =>
      simp only [trace_run] at h
      cases h
    | cons vec rest =>
      simp only [trace_run] at h
      split at h
      next e heq => cases h
      next s1 log heq =>
        split at h
        next e heq2 => cases h
        next s2' logs' heq2 =>
          injection h with h2
          cases h2
          exact le_trans (step_ok_pile_mono heq c) (ih rest s1 _ _ heq2 c)

/-- Decomposing a successful `Except` bind. -/
theorem except_bind_ok {ε α β : Type} {x : Except ε α} {f : α → Except ε β}
    {b : β} (h : x >>= f = .ok b) : ∃ a, x = .ok a ∧ f a = .ok b := by
  cases x with
  | error e => exact absurd h (by simp [Bind.bind, Except.bind])
  | ok a => exact ⟨a, rfl, h⟩

/-- A successful `mapM` over `Except` succeeds element by element. -/
theorem mapM_ok_forall₂ {ε α β : Type} {f : α → Except ε β} :
    ∀ {l : List α} {l' : List β}, l.mapM f = .ok l' →
      List.Forall₂ (fun a b => f a = .ok b) l l' := by
  intro l
  induction l with
  | nil =>
    intro l' h
    rw [List.mapM_nil] at h
    injection h with h2
    subst h2
    exact List.Forall₂.nil
  | cons a t ih =>
    intro l' h
    rw [List.mapM_cons] at h
    obtain ⟨b, hb, h2⟩ := except_bind_ok h
    obtain ⟨bs, hbs, h3⟩ := except_bind_ok h2
    injection h3 with h3
    subst h3
    exact List.Forall₂.cons hb (ih hbs)

/-- A list of lists, all of length 5, sums to five per entry. -/
theorem sum_len_const {L : List (List Card)} (h : ∀ x ∈ L, List.length x = 5) :
    (L.map List.length).sum = 5 * L.length := by
  induction L with
  | nil => simp
  | cons a t ih =>
    rw [List.map_cons, List.sum_cons, h a (List.mem_cons_self a t),
      ih (fun x hx => h x (List.mem_cons_of_mem a hx)), List.length_cons]
    ring

/-- Every successful initialization has an empty discard pile, the cursor
at `num_players * 5`, and — whenever `5 × num_players` fits in the deck —
exactly `5 × num_players` cards across the hands. -/
theorem init_ok_props {deck : List RawCard} {np : Nat} {cm : ColorMap}
    {s0 : GameState} (hinit : init_game_state deck np cm = .ok s0) :
    s0.discard_pile = [] ∧ s0.deck_draw_ptr = np * 5 ∧
    (5 * np ≤ deck.length → handsSum s0 = 5 * np) := by
  simp only [init_game_state, bind, Except.bind] at hinit
  obtain ⟨hands, hm, h2⟩ := except_bind_ok hinit
  injection h2 with h2
  subst h2
  refine ⟨rfl, rfl, ?_⟩
  intro hle
  have hf := mapM_ok_forall₂ hm
  obtain ⟨hflen, hfget⟩ := List.forall₂_iff_get.mp hf
  show (hands.map List.length).sum = 5 * np
  have hlens : ∀ hd ∈ hands, List.length hd = 5 := by
    intro hd hmem
    obtain ⟨⟨k, hk⟩, hget⟩ := List.mem_iff_get.mp hmem
    have hk2 : k < (List.range np).length := by rw [hflen]; exact hk
    have hgk := hfget k hk2 hk
    rw [hget] at hgk
    simp only [List.get_eq_getElem, List.getElem_range] at hgk
    have hlen2 := (mapM_ok_forall₂ hgk).length_eq
    have hkn : k < np := by rwa [List.length_range] at hk2
    rw [← hlen2, List.length_take, List.length_drop]
    omega
  rw [sum_len_const hlens, ← hflen, List.length_range]

/-- A successful `pyPop` shrinks the list by exactly one element. -/
theorem pyPop_some_length {α : Type} {l : List α} {i : Int} {c : α}
    {l' : List α} (h : pyPop l i = some (c, l')) : l'.length + 1 = l.length := by
  simp only [pyPop] at h
  by_cases hi : i < 0
  · rw [if_pos hi] at h
    split at h
    next hc =>
      split at h
      next a ha =>
        have h2 : l' = l.eraseIdx (i + l.length).toNat :=
          (congrArg Prod.snd (Option.some.inj h)).symm
        rw [h2]
        exact List.length_eraseIdx_add_one (by omega)
      next => cases h
    next => cases h
  · rw [if_neg hi] at h
    split at h
    next hc =>
      split at h
      next a ha =>
        have h2 : l' = l.eraseIdx i.toNat :=
          (congrArg Prod.snd (Option.some.inj h)).symm
        rw [h2]
        exact List.length_eraseIdx_add_one (by omega)
      next => cases h
    next => cases h

/-- Replacing the hand at an occupied slot changes the total hand count by
exactly the length difference. -/
theorem sum_length_set {hands : List (List Card)} :
    ∀ {acting : Nat} {hand : List Card} (h' : List Card),
      hands[acting]? = some hand →
      ((hands.set acting h').map List.length).sum + hand.length
        = (hands.map List.length).sum + h'.length := by
  induction hands with
  | nil =>
    intro acting hand h' hget
    cases hget
  | cons a t ih =>
    intro acting hand h' hget
    cases acting with
    | zero =>
      simp only [List.getElem?_cons_zero] at hget
      injection hget with h2
      subst h2
      simp only [List.set, List.map_cons, List.sum_cons]
      omega
    | succ k =>
      simp only [List.getElem?_cons_succ] at hget
      have h3 := ih h' hget
      simp only [List.set, List.map_cons, List.sum_cons]
      omega

/-- Mass accounting for a successful discard: cards in hands plus discard
pile plus undrawn cards is unchanged, and the cursor stays in the deck. -/
theorem discard_ok_mass {av : Int} {acting : Nat} {deck : List RawCard}
    {cm : ColorMap} {s s' : GameState}
    (h : handle_discard av acting deck cm s = .ok s')
    (hptr : s.deck_draw_ptr ≤ deck.length) :
    handsSum s' + s'.discard_pile.length + (deck.length - s'.deck_draw_ptr)
      = handsSum s + s.discard_pile.length + (deck.length - s.deck_draw_ptr)
    ∧ s'.deck_draw_ptr ≤ deck.length := by
  simp only [handle_discard] at h
  split at h
  next => cases h
  next hand hg =>
    split at h
    next => cases h
    next =>
      split at h
      next => cases h
      next card hand' hpop =>
        have hlen := pyPop_some_length hpop
        split at h
        next hlt50 =>
          split at h
          next => cases h
          next raw hraw =>
            have hdecklt : s.deck_draw_ptr < deck.length := getElem?_some_lt hraw
            split at h
            next => cases h
            next nc hcs =>
              injection h with h2
              subst h2
              have hsum := sum_length_set (hand' ++ [nc]) hg
              simp only [List.length_append, List.length_cons,
                List.length_nil] at hsum
              constructor
              · simp only [handsSum, List.set_set, List.length_append,
                  List.length_cons, List.length_nil]
                omega
              · show s.deck_draw_ptr + 1 ≤ deck.length
                omega
        next hge50 =>
          injection h with h2
          subst h2
          have hsum := sum_length_set hand' hg
          constructor
          · simp only [handsSum, List.length_append, List.length_cons,
              List.length_nil]
            omega
          · exact hptr

/-- Mass accounting for a successful play: exactly one card is consumed
out of hands, discard pile and undrawn deck together. -/
theorem play_ok_mass {av : Int} {acting : Nat} {deck : List RawCard}
    {cm : ColorMap} {s s' : GameState}
    (h : handle_play av acting deck cm s = .ok s')
    (hptr : s.deck_draw_ptr ≤ deck.length) :
    handsSum s' + s'.discard_pile.length + (deck.length - s'.deck_draw_ptr) + 1
      = handsSum s + s.discard_pile.length + (deck.length - s.deck_draw_ptr)
    ∧ s'.deck_draw_ptr ≤ deck.length := by
  simp only [handle_play] at h
  split at h
  next => cases h
  next hand hg =>
    split at h
    next => cases h
    next =>
      split at h
      next => cases h
      next card hand' hpop =>
        have hlen := pyPop_some_length hpop
        split at h
        next => cases h
        next h0 hlook =>
          split at h
          next hlt50 =>
            split at h
            next => cases h
            next raw hraw =>
              have hdecklt : s.deck_draw_ptr < deck.length := getElem?_some_lt hraw
              split at h
              next => cases h
              next nc hcs =>
                injection h with h2
                subst h2
                have hsum := sum_length_set (hand' ++ [nc]) hg
                simp only [List.length_append, List.length_cons,
                  List.length_nil] at hsum
                constructor
                · simp only [handsSum, List.set_set, List.length_append,
                    List.length_cons, List.length_nil]
                  omega
                · show s.deck_draw_ptr + 1 ≤ deck.length
                  omega
          next hge50 =>
            injection h with h2
            subst h2
            have hsum := sum_length_set hand' hg
            constructor
            · simp only [handsSum]
              omega
            · exact hptr

/-- A skipped step contributes no play. -/
theorem playCount_skipped : playCount [StepLog.skipped] = 0 := by
  simp [playCount, List.filter, isPlayLog]

/-- A logged action outside 5–9 contributes no play. -/
theorem playCount_acted_not_play {i : Nat} {v : Int} (h : ¬(5 ≤ v ∧ v ≤ 9)) :
    playCount [StepLog.acted i v] = 0 := by
  have hb : isPlayLog (.acted i v) = false := by
    simp only [isPlayLog, decide_eq_false_iff_not]
    exact h
  simp [playCount, List.filter, hb]

/-- A logged action in 5–9 contributes exactly one play. -/
theorem playCount_acted_play {i : Nat} {v : Int} (h : 5 ≤ v ∧ v ≤ 9) :
    playCount [StepLog.acted i v] = 1 := by
  have hb : isPlayLog (.acted i v) = true := by
    simp only [isPlayLog, decide_eq_true_eq]
    exact h
  simp [playCount, List.filter, hb]

/-- Mass accounting for one successful step, counting its play actions. -/
theorem step_ok_mass {deck : List RawCard} {cm : ColorMap}
    {descs : List String} {vec : List Int} {s s' : GameState} {log : StepLog}
    (h : trace_step deck cm descs vec s = .ok (s', log))
    (hptr : s.deck_draw_ptr ≤ deck.length) :
    handsSum s' + s'.discard_pile.length + playCount [log]
        + (deck.length - s'.deck_draw_ptr)
      = handsSum s + s.discard_pile.length + (deck.length - s.deck_draw_ptr)
    ∧ s'.deck_draw_ptr ≤ deck.length := by
  simp only [trace_step] at h
  split at h
  next =>
    injection h with h2
    cases h2
    refine ⟨?_, hptr⟩
    rw [playCount_skipped]
    omega
  next =>
    split at h
    next => cases h
    next hval =>
      split at h
      next => cases h
      next d hd =>
        split at h
        next e heq => cases h
        next s'' heq =>
          injection h with h2
          cases h2
          split at heq
          next hc1 =>
            obtain ⟨hm, hp⟩ := discard_ok_mass heq hptr
            refine ⟨?_, hp⟩
            rw [playCount_acted_not_play (by omega)]
            omega
          next hc1 =>
            split at heq
            next hc2 =>
              obtain ⟨hm, hp⟩ := play_ok_mass heq hptr
              refine ⟨?_, hp⟩
              rw [playCount_acted_play hc2]
              omega
            next hc2 =>
              split at heq
              next =>
                injection heq with h3
                subst h3
                refine ⟨?_, hptr⟩
                rw [playCount_acted_not_play hc2]
                omega
              next =>
                injection heq with h3
                subst h3
                refine ⟨?_, hptr⟩
                rw [playCount_acted_not_play hc2]
                omega
  next => cases h

/-- Splitting the play count over a cons. -/
theorem playCount_cons (log : StepLog) (logs : List StepLog) :
    playCount (log :: logs) = playCount [log] + playCount logs := by
  cases hl : isPlayLog log
  · simp [playCount, List.filter, hl]
  · simp [playCount, List.filter, hl]
    omega

/-- Mass accounting over a successful run: hands, discard pile, play count
and undrawn deck together are conserved. -/
theorem run_ok_mass {deck : List RawCard} {cm : ColorMap}
    {descs : List String} :
    ∀ (n : Nat) (acts : List (List Int)) (s s2 : GameState)
      (logs : List StepLog),
      trace_run deck cm descs acts n s = .ok (s2, logs) →
      s.deck_draw_ptr ≤ deck.length →
      handsSum s2 + s2.discard_pile.length + playCount logs
          + (deck.length - s2.deck_draw_ptr)
        = handsSum s + s.discard_pile.length + (deck.length - s.deck_draw_ptr)
      ∧ s2.deck_draw_ptr ≤ deck.length := by
  intro n
  induction n with
  | zero =>
    intro acts s s2 logs h hp
    simp only [trace_run] at h
    injection h with h2
    cases h2
    refine ⟨?_, hp⟩
    simp [playCount]
  | succ k ih =>
    intro acts s s2 logs h hp
    cases acts with
    | nil =>
      simp only [trace_run] at h
      cases h
    | cons vec rest =>
      simp only [trace_run] at h
      split at h
      next e heq => cases h
      next s1 log heq =>
        split at h
        next e heq2 => cases h
        next s2a logsa heq2 =>
          injection h with h2
          cases h2
          obtain ⟨hm1, hp1⟩ := step_ok_mass heq hp
          obtain ⟨hm2, hp2⟩ := ih rest s1 _ _ heq2 hp1
          refine ⟨?_, hp2⟩
          rw [playCount_cons]
          omega

/-! ### Theorems -/

/-- C1 (counterexample): over a six-card deck with the draw cursor already
at the deck length (but below 50), a discard does not come out as a no-op
draw: the code still tries to draw, indexes past the deck's end, and fails
with an IndexError carrying the half-mutated state. -/
theorem discard_at_deck_end_errors :
    sDeck6.deck_draw_ptr = deck6.length ∧
    handle_discard 0 0 deck6 cm1 sDeck6 =
      .error (.indexError,
        { hands := [fourReds],
          discard_pile := [⟨"Red", 1⟩],
          played_pile := [("Red", 0)],
          deck_draw_ptr := 6 }) :=
  ⟨by decide, rfl⟩

/-- C1 (amended): after a valid discard or play removes the card, a new
card is appended to the acting hand and the draw cursor advanced by one if
and only if the cursor is strictly below the hardcoded constant 50 (the
full-deck size) — not the episode's actual deck length; at 50 or beyond
the draw is a no-op and the hand stays one card short. -/
theorem discard_play_draw_iff_cursor_below_50 (deck : List RawCard)
    (cm : ColorMap) (s : GameState) (acting : Nat) (hand : List Card)
    (hget : s.hands[acting]? = some hand) :
    (∀ av card hand' s', 0 ≤ av → pyPop hand av = some (card, hand') →
      handle_discard av acting deck cm s = .ok s' →
      ((s.deck_draw_ptr < 50 →
          s'.deck_draw_ptr = s.deck_draw_ptr + 1 ∧
          ∃ c, s'.hands[acting]? = some (hand' ++ [c])) ∧
       (50 ≤ s.deck_draw_ptr →
          s'.deck_draw_ptr = s.deck_draw_ptr ∧
          s'.hands[acting]? = some hand'))) ∧
    (∀ av card hand' s', 5 ≤ av → pyPop hand (av - 5) = some (card, hand') →
      handle_play av acting deck cm s = .ok s' →
      ((s.deck_draw_ptr < 50 →
          s'.deck_draw_ptr = s.deck_draw_ptr + 1 ∧
          ∃ c, s'.hands[acting]? = some (hand' ++ [c])) ∧
       (50 ≤ s.deck_draw_ptr →
          s'.deck_draw_ptr = s.deck_draw_ptr ∧
          s'.hands[acting]? = some hand'))) := by
  have hacting : acting < s.hands.length := getElem?_some_lt hget
  constructor
  · intro av card hand' s' h0 hpop hok
    obtain ⟨hlt, hl', hlen⟩ := pyPop_some_facts h0 hpop
    have hnotle : ¬ ((hand.length : Int) ≤ av) := by omega
    simp only [handle_discard, hget, if_neg hnotle, hpop] at hok
    constructor
    · intro hptr
      rw [if_pos hptr] at hok
      split at hok
      next => cases hok
      next raw hraw =>
        split at hok
        next => cases hok
        next nc hnc =>
          injection hok with hs'
          subst hs'
          refine ⟨rfl, nc, ?_⟩
          show ((s.hands.set acting hand').set acting (hand' ++ [nc]))[acting]? = _
          rw [List.set_set]
          exact List.getElem?_set_eq_of_lt _ hacting
    · intro hptr
      rw [if_neg (by omega : ¬ s.deck_draw_ptr < 50)] at hok
      injection hok with hs'
      subst hs'
      exact ⟨rfl, List.getElem?_set_eq_of_lt _ hacting⟩
  · intro av card hand' s' h5 hpop hok
    obtain ⟨hlt, hl', hlen⟩ := pyPop_some_facts (by omega) hpop
    have hnotle : ¬ ((hand.length : Int) ≤ av - 5) := by omega
    simp only [handle_play, hget, if_neg hnotle, hpop] at hok
    split at hok
    next => cases hok
    next h0v hlook =>
      constructor
      · intro hptr
        rw [if_pos hptr] at hok
        split at hok
        next => cases hok
        next raw hraw =>
          split at hok
          next => cases hok
          next nc hnc =>
            injection hok with hs'
            subst hs'
            refine ⟨rfl, nc, ?_⟩
            show ((s.hands.set acting hand').set acting (hand' ++ [nc]))[acting]? = _
            rw [List.set_set]
            exact List.getElem?_set_eq_of_lt _ hacting
      · intro hptr
        rw [if_neg (by omega : ¬ s.deck_draw_ptr < 50)] at hok
        injection hok with hs'
        subst hs'
        exact ⟨rfl, List.getElem?_set_eq_of_lt _ hacting⟩

theorem discard_play_draw_iff_cursor_below_50_witness :
    sAfterDiscard.deck_draw_ptr = sFive.deck_draw_ptr + 1 ∧
    ∃ c, sAfterDiscard.hands[0]? = some (fourReds ++ [c]) :=
  ((discard_play_draw_iff_cursor_below_50 deck50 cm1 sFive 0 fiveReds rfl).1
    0 ⟨"Red", 1⟩ fourReds sAfterDiscard (by decide) rfl rfl).1 (by decide)

/-- C2 (counterexample): with a 3-card deck and one player, `5 × 1` exceeds
the deck length, yet initialization succeeds — the slice silently clamps to
a 3-card hand and the draw cursor is still set past the deck's end.  No
ConfigurationError-kind failure exists in the code. -/
theorem init_short_deck_succeeds :
    deck3.length < 5 * 1 ∧
    init_game_state deck3 1 cm1 =
      .ok { hands := [[⟨"Red", 1⟩, ⟨"Red", 1⟩, ⟨"Red", 1⟩]],
            discard_pile := [],
            played_pile := [("Red", 0)],
            deck_draw_ptr := 5 } :=
  ⟨by decide, rfl⟩

/-- C2 (amended): initialization performs no deck-length check.  Whenever
every deck color resolves in the color map it succeeds — also when
`5 × num_players` exceeds the deck length — and under the precondition
`5 × num_players ≤ deck length` every dealt hand has the full 5 cards. -/
theorem init_succeeds_without_length_check (deck : List RawCard) (n : Nat)
    (cm : ColorMap) (hcolors : ∀ c ∈ deck, (cm.lookup c.color).isSome) :
    ∃ s, init_game_state deck n cm = .ok s ∧
      s.hands.length = n ∧
      s.discard_pile = [] ∧
      s.deck_draw_ptr = 5 * n ∧
      (5 * n ≤ deck.length → ∀ hd ∈ s.hands, List.length hd = 5) := by
  obtain ⟨hands, hh, hf⟩ := mapM_deal_ok hcolors (List.range n)
  obtain ⟨hflen, hfget⟩ := List.forall₂_iff_get.mp hf
  refine ⟨{ hands := hands, discard_pile := [],
            played_pile := cm.map (fun p => (p.2, 0)),
            deck_draw_ptr := n * 5 }, ?_, ?_, rfl, Nat.mul_comm n 5, ?_⟩
  · simp only [init_game_state]
    rw [hh]
    rfl
  · rw [← hflen, List.length_range]
  · intro hle hd hmem
    obtain ⟨⟨k, hk⟩, hget⟩ := List.mem_iff_get.mp hmem
    have hk2 : k < (List.range n).length := by rw [hflen]; exact hk
    have := hfget k hk2 hk
    rw [hget] at this
    simp only [List.get_eq_getElem, List.getElem_range] at this
    have hkn : k < n := by rwa [List.length_range] at hk2
    rw [this, List.length_take, List.length_drop]
    omega

theorem init_succeeds_without_length_check_witness :
    ∃ s, init_game_state deck50 2 cm1 = .ok s ∧
      s.hands.length = 2 ∧
      s.discard_pile = [] ∧
      s.deck_draw_ptr = 5 * 2 ∧
      (5 * 2 ≤ deck50.length → ∀ hd ∈ s.hands, List.length hd = 5) :=
  init_succeeds_without_length_check deck50 2 cm1 (by decide)

/-- C3 (counterexample): a failure of the LookupError kind (a deck color
absent from the color map) is not caught by the batch driver — `main` only
catches `InvalidGameError` — so the first episode's failure aborts the
whole batch even though the second episode on its own completes. -/
theorem batch_aborts_on_lookup_failure :
    run_episode cm1 descs31 epFine = .ok (.completed 4) ∧
    main_batch cm1 descs31 [epBadColor, epFine] = .error .keyError :=
  ⟨rfl, rfl⟩

/-- C3 (amended): the driver catches exactly the `InvalidGameError` kind at
episode granularity: an episode whose replay raises it is recorded as that
episode's terminal output and every remaining episode is still processed;
errors of the other kinds propagate and abort the batch. -/
theorem batch_catches_only_invalid_game (cm : ColorMap) (descs : List String)
    (ep : Episode) (rest : List Episode) (m : String)
    (h : trace_game ep.deck ep.num_players cm descs ep.actions ep.num_actions =
      .error (.invalidGame m)) :
    run_episode cm descs ep = .ok (.failedLogged m) ∧
    main_batch cm descs (ep :: rest) =
      (main_batch cm descs rest).map (fun l => .failedLogged m :: l) := by
  have hre : run_episode cm descs ep = .ok (.failedLogged m) := by
    simp [run_episode, h]
  refine ⟨hre, ?_⟩
  simp only [main_batch]
  rw [hre]
  cases hmb : main_batch cm descs rest <;> rfl

theorem batch_catches_only_invalid_game_witness :
    run_episode cm1 descs31 ep31 =
      .ok (.failedLogged "Game data contains an invalid action value") ∧
    main_batch cm1 descs31 [ep31] =
      (main_batch cm1 descs31 []).map
        (fun l => .failedLogged "Game data contains an invalid action value" :: l) :=
  batch_catches_only_invalid_game cm1 descs31 ep31 [] _ rfl

/-- C5: conservation law — at every step of a replay that has not failed,
the cards across all hands, plus the discard pile, plus the cards consumed
by play actions, plus the undrawn cards past the draw cursor, add up to
the episode's deck length (and the cursor never passes the deck's end). -/
theorem card_conservation (deck : List RawCard) (cm : ColorMap)
    (descs : List String) (acts : List (List Int)) (n np : Nat)
    (s0 s : GameState) (logs : List StepLog)
    (hnp : 5 * np ≤ deck.length)
    (hinit : init_game_state deck np cm = .ok s0)
    (hrun : trace_run deck cm descs acts n s0 = .ok (s, logs)) :
    handsSum s + s.discard_pile.length + playCount logs
        + (deck.length - s.deck_draw_ptr)
      = deck.length ∧ s.deck_draw_ptr ≤ deck.length := by
  obtain ⟨hd0, hp0, hs0⟩ := init_ok_props hinit
  have hsum0 := hs0 hnp
  have hdlen0 : s0.discard_pile.length = 0 := by rw [hd0]; rfl
  have hptr0 : s0.deck_draw_ptr ≤ deck.length := by omega
  obtain ⟨hm, hp⟩ := run_ok_mass n acts s0 s logs hrun hptr0
  refine ⟨?_, hp⟩
  omega

theorem card_conservation_witness :
    handsSum sC5 + sC5.discard_pile.length + playCount [.acted 0 3]
        + (deck50.length - sC5.deck_draw_ptr)
      = deck50.length ∧ sC5.deck_draw_ptr ≤ deck50.length :=
  card_conservation deck50 cm1 descs31 [[3, 30]] 1 2 s0Two sC5 [.acted 0 3]
    (by decide) rfl rfl

/-- C6: a play with a valid hand index removes exactly the indexed card
from the acting hand (possibly followed by one drawn card), raises the
card's color stack to the card's rank if and only if that rank strictly
exceeds the current height — otherwise the stacks are all left unchanged —
and stack heights never decrease, neither across this play nor across any
successful sequence of replay steps. -/
theorem play_updates_stack_monotonically (deck : List RawCard)
    (cm : ColorMap) (s : GameState) (acting : Nat) (hand hand' : List Card)
    (card : Card) (av : Int) (h0 : Int)
    (hget : s.hands[acting]? = some hand) (h5 : 5 ≤ av)
    (hpop : pyPop hand (av - 5) = some (card, hand'))
    (hlook : pileLookup s.played_pile card.colorName = some h0) :
    ((outState (handle_play av acting deck cm s)).played_pile =
       if h0 < card.shownRank then
         pileSet s.played_pile card.colorName card.shownRank
       else s.played_pile) ∧
    (∀ c, pileHeight s.played_pile c ≤
       pileHeight (outState (handle_play av acting deck cm s)).played_pile c) ∧
    (∃ h2, (outState (handle_play av acting deck cm s)).hands[acting]? = some h2 ∧
       (h2 = hand' ∨ ∃ nc, h2 = hand' ++ [nc])) ∧
    (∀ (deck2 : List RawCard) (cm2 : ColorMap) (descs : List String)
       (acts : List (List Int)) (n : Nat) (s1 s2 : GameState)
       (logs : List StepLog),
       trace_run deck2 cm2 descs acts n s1 = .ok (s2, logs) →
       ∀ c, pileHeight s1.played_pile c ≤ pileHeight s2.played_pile c) := by
  have hacting : acting < s.hands.length := getElem?_some_lt hget
  obtain ⟨hlt, hl', hlen⟩ := pyPop_some_facts (by omega) hpop
  have hnotle : ¬ ((hand.length : Int) ≤ av - 5) := by omega
  have hmono : ∀ c', pileHeight s.played_pile c' ≤
      pileHeight (if h0 < card.shownRank then
        pileSet s.played_pile card.colorName card.shownRank
      else s.played_pile) c' := by
    intro c'
    by_cases hr : h0 < card.shownRank
    · rw [if_pos hr]
      exact pileHeight_set_mono hlook hr c'
    · rw [if_neg hr]
  have hmain : (outState (handle_play av acting deck cm s)).played_pile =
      (if h0 < card.shownRank then
        pileSet s.played_pile card.colorName card.shownRank
      else s.played_pile) ∧
      (∃ h2, (outState (handle_play av acting deck cm s)).hands[acting]? = some h2 ∧
        (h2 = hand' ∨ ∃ nc, h2 = hand' ++ [nc])) := by
    simp only [handle_play, hget, if_neg hnotle, hpop, hlook]
    by_cases hptr : s.deck_draw_ptr < 50
    · rw [if_pos hptr]
      split
      next =>
        exact ⟨rfl, hand', List.getElem?_set_eq_of_lt _ hacting, Or.inl rfl⟩
      next raw hdeck =>
        split
        next =>
          exact ⟨rfl, hand', List.getElem?_set_eq_of_lt _ hacting, Or.inl rfl⟩
        next nc hcs =>
          refine ⟨rfl, hand' ++ [nc], ?_, Or.inr ⟨nc, rfl⟩⟩
          show ((s.hands.set acting hand').set acting (hand' ++ [nc]))[acting]? = _
          rw [List.set_set]
          exact List.getElem?_set_eq_of_lt _ hacting
    · rw [if_neg hptr]
      exact ⟨rfl, hand', List.getElem?_set_eq_of_lt _ hacting, Or.inl rfl⟩
  refine ⟨hmain.1, ?_, hmain.2, ?_⟩
  · intro c
    rw [hmain.1]
    exact hmono c
  · intro deck2 cm2 descs acts n s1 s2 logs hr
    exact run_ok_pile_mono n acts s1 s2 logs hr

theorem play_updates_stack_monotonically_witness :
    ((outState (handle_play 5 0 deck50 cm1 sPlay)).played_pile =
       if (1 : Int) < (3 : Int) then pileSet sPlay.played_pile "Red" 3
       else sPlay.played_pile) ∧
    (∀ c, pileHeight sPlay.played_pile c ≤
       pileHeight (outState (handle_play 5 0 deck50 cm1 sPlay)).played_pile c) ∧
    (∃ h2, (outState (handle_play 5 0 deck50 cm1 sPlay)).hands[0]? = some h2 ∧
       (h2 = [⟨"Red", 1⟩] ∨ ∃ nc, h2 = [⟨"Red", 1⟩] ++ [nc])) ∧
    (∀ (deck2 : List RawCard) (cm2 : ColorMap) (descs : List String)
       (acts : List (List Int)) (n : Nat) (s1 s2 : GameState)
       (logs : List StepLog),
       trace_run deck2 cm2 descs acts n s1 = .ok (s2, logs) →
       ∀ c, pileHeight s1.played_pile c ≤ pileHeight s2.played_pile c) :=
  play_updates_stack_monotonically deck50 cm1 sPlay 0
    [⟨"Red", 3⟩, ⟨"Red", 1⟩] [⟨"Red", 1⟩] ⟨"Red", 3⟩ 5 1
    rfl (by decide) rfl rfl

/-- C7: a discard code whose index, or a play code whose index `v - 5`, is
greater than or equal to the acting player's current hand length — the
equality (off-by-one) case included — makes the handler raise the
`InvalidGameError` (the InvalidActionError kind) instead of clamping or
wrapping the index. -/
theorem discard_play_oob_index_raises (deck : List RawCard) (cm : ColorMap)
    (s : GameState) (acting : Nat) (hand : List Card) (av : Int)
    (hget : s.hands[acting]? = some hand) :
    ((hand.length : Int) ≤ av →
      handle_discard av acting deck cm s =
        .error (.invalidGame "Game data contains an invalid discard index", s)) ∧
    ((hand.length : Int) ≤ av - 5 →
      handle_play av acting deck cm s =
        .error (.invalidGame "Game data contains an invalid play index", s)) := by
  constructor
  · intro hle
    unfold handle_discard
    rw [hget]
    simp [hle]
  · intro hle
    unfold handle_play
    rw [hget]
    simp [hle]

theorem discard_play_oob_index_raises_witness :
    handle_discard 5 0 deck50 cm1 sFive =
      .error (.invalidGame "Game data contains an invalid discard index", sFive) ∧
    handle_play 10 0 deck50 cm1 sFive =
      .error (.invalidGame "Game data contains an invalid play index", sFive) :=
  ⟨(discard_play_oob_index_raises deck50 cm1 sFive 0 fiveReds 5 rfl).1 (by decide),
   (discard_play_oob_index_raises deck50 cm1 sFive 0 fiveReds 10 rfl).2 (by decide)⟩

/-- C10: when the derived hand index is out of bounds, the failure is
raised before any mutation: the error carries a state whose hands, discard
pile, played stacks and draw cursor are all exactly the caller's. -/
theorem discard_play_oob_failure_is_atomic (deck : List RawCard) (cm : ColorMap)
    (s : GameState) (acting : Nat) (hand : List Card) (av : Int)
    (hget : s.hands[acting]? = some hand) :
    ((hand.length : Int) ≤ av →
      ∃ e s', handle_discard av acting deck cm s = .error (e, s') ∧
        s'.hands = s.hands ∧ s'.discard_pile = s.discard_pile ∧
        s'.played_pile = s.played_pile ∧ s'.deck_draw_ptr = s.deck_draw_ptr) ∧
    ((hand.length : Int) ≤ av - 5 →
      ∃ e s', handle_play av acting deck cm s = .error (e, s') ∧
        s'.hands = s.hands ∧ s'.discard_pile = s.discard_pile ∧
        s'.played_pile = s.played_pile ∧ s'.deck_draw_ptr = s.deck_draw_ptr) := by
  constructor
  · intro hle
    refine ⟨.invalidGame "Game data contains an invalid discard index", s, ?_, rfl, rfl, rfl, rfl⟩
    unfold handle_discard
    rw [hget]
    simp [hle]
  · intro hle
    refine ⟨.invalidGame "Game data contains an invalid play index", s, ?_, rfl, rfl, rfl, rfl⟩
    unfold handle_play
    rw [hget]
    simp [hle]

theorem discard_play_oob_failure_is_atomic_witness :
    (∃ e s', handle_discard 6 0 deck50 cm1 sFive = .error (e, s') ∧
      s'.hands = sFive.hands ∧ s'.discard_pile = sFive.discard_pile ∧
      s'.played_pile = sFive.played_pile ∧ s'.deck_draw_ptr = sFive.deck_draw_ptr) ∧
    (∃ e s', handle_play 11 0 deck50 cm1 sFive = .error (e, s') ∧
      s'.hands = sFive.hands ∧ s'.discard_pile = sFive.discard_pile ∧
      s'.played_pile = sFive.played_pile ∧ s'.deck_draw_ptr = sFive.deck_draw_ptr) :=
  ⟨(discard_play_oob_failure_is_atomic deck50 cm1 sFive 0 fiveReds 6 rfl).1 (by decide),
   (discard_play_oob_failure_is_atomic deck50 cm1 sFive 0 fiveReds 11 rfl).2 (by decide)⟩

/-- C8: a step whose single actor carries a code outside `[0, 30]` makes the
replay raise the `InvalidGameError` at once: the error carries the state
unchanged (no mutation happened) and the step loop stops with no log entry
— hence no snapshot — for that step. -/
theorem invalid_action_value_fails_immediately (deck : List RawCard)
    (cm : ColorMap) (descs : List String) (vec : List Int) (s : GameState)
    (i : Nat) (v : Int) (rest : List (List Int)) (n : Nat)
    (hns : nonSentinel vec = [i]) (hv : vec.getD i 0 = v)
    (hbad : v < 0 ∨ 30 < v) :
    trace_step deck cm descs vec s =
      .error (.invalidGame "Game data contains an invalid action value", s) ∧
    trace_run deck cm descs (vec :: rest) (n + 1) s =
      .error (.invalidGame "Game data contains an invalid action value", s) := by
  have hv' : vec[i]?.getD 0 = v := by
    simpa [List.getD] using hv
  have hstep : trace_step deck cm descs vec s =
      .error (.invalidGame "Game data contains an invalid action value", s) := by
    simp [trace_step, hns, hv', hbad]
  refine ⟨hstep, ?_⟩
  simp [trace_run, hstep]

theorem invalid_action_value_fails_immediately_witness :
    trace_step deck50 cm1 descs31 [31] sFive =
      .error (.invalidGame "Game data contains an invalid action value", sFive) ∧
    trace_run deck50 cm1 descs31 [[31]] 1 sFive =
      .error (.invalidGame "Game data contains an invalid action value", sFive) :=
  invalid_action_value_fails_immediately deck50 cm1 descs31 [31] sFive 0 31 [] 0
    (by decide) (by decide) (by decide)

/-- C9: a hint step (actor code in 10–29) leaves the game state untouched,
and running the same hint step twice in a row ends in exactly the state of
running it once (both equal the starting state). -/
theorem hint_is_noop_and_idempotent (deck : List RawCard) (cm : ColorMap)
    (descs : List String) (vec : List Int) (s : GameState) (i : Nat) (v : Int)
    (d : String) (hns : nonSentinel vec = [i]) (hv : vec.getD i 0 = v)
    (hlo : 10 ≤ v) (hhi : v ≤ 29) (hd : descs[v.toNat]? = some d) :
    trace_step deck cm descs vec s = .ok (s, .acted i v) ∧
    trace_run deck cm descs [vec] 1 s = .ok (s, [.acted i v]) ∧
    trace_run deck cm descs [vec, vec] 2 s = .ok (s, [.acted i v, .acted i v]) := by
  have hnotbad : ¬(v < 0 ∨ 30 < v) := by omega
  have hnotd : ¬(0 ≤ v ∧ v ≤ 4) := by omega
  have hnotp : ¬(5 ≤ v ∧ v ≤ 9) := by omega
  have hhint : 10 ≤ v ∧ v ≤ 29 := ⟨hlo, hhi⟩
  have hv' : vec[i]?.getD 0 = v := by
    simpa [List.getD] using hv
  have hstep : trace_step deck cm descs vec s = .ok (s, .acted i v) := by
    simp [trace_step, hns, hv', hnotbad, hnotd, hnotp, hhint, hd]
  refine ⟨hstep, ?_, ?_⟩
  · simp [trace_run, hstep]
  · simp [trace_run, hstep]

theorem hint_is_noop_and_idempotent_witness :
    trace_step deck50 cm1 descs31 [30, 15] sFive = .ok (sFive, .acted 1 15) ∧
    trace_run deck50 cm1 descs31 [[30, 15]] 1 sFive = .ok (sFive, [.acted 1 15]) ∧
    trace_run deck50 cm1 descs31 [[30, 15], [30, 15]] 2 sFive =
      .ok (sFive, [.acted 1 15, .acted 1 15]) :=
  hint_is_noop_and_idempotent deck50 cm1 descs31 [30, 15] sFive 1 15 "action"
    (by decide) (by decide) (by decide) (by decide) (by decide)

/-- C4: a step vector in which two or more entries differ from the sentinel
`30` makes the decoder fail (torch's `.item()` raises on a multi-element
tensor) rather than silently pick one of the differing players; the error
carries the state unchanged. -/
theorem ambiguous_step_fails (deck : List RawCard) (cm : ColorMap)
    (descs : List String) (vec : List Int) (s : GameState)
    (h2 : 2 ≤ (nonSentinel vec).length) :
    trace_step deck cm descs vec s = .error (.runtimeError, s) := by
  match hns : nonSentinel vec with
  | [] => rw [hns] at h2; simp at h2
  | [i] => rw [hns] at h2; simp at h2
  | a :: b :: l =>
    unfold trace_step
    rw [hns]

theorem ambiguous_step_fails_witness :
    2 ≤ (nonSentinel [0, 1]).length ∧
    trace_step deck50 cm1 descs31 [0, 1] sFive = .error (.runtimeError, sFive) :=
  ⟨by decide, ambiguous_step_fails deck50 cm1 descs31 [0, 1] sFive (by decide)⟩

end HanabiTrace
